import Mathlib

/-!
Verification of the coverage path-planning engine
(`app/services/path_planning.py`, `app/utils/geometry.py`,
`app/models/pydantic_models.py`).

Python floats are modelled as real numbers; `numpy.arange` is modelled by its
documented semantics (count = ceiling of `(stop - start) / step`, values
`start + i * step`); Python `int()` truncation toward zero is `pyInt`.
-/

open scoped Classical

noncomputable section

namespace RobotPlanning

/-- One motion waypoint, mirroring the `PathPoint` dataclass. -/
structure PathPoint where
  x : ℝ
  y : ℝ
  z : ℝ
  orientation : ℝ
  tool_active : Bool
  motion_type : String
  feed_rate : ℝ

/-- A point as the planners construct it: only `x`, `y`, `orientation` are
given, remaining fields keep the dataclass defaults
(`z = 0`, `tool_active = True`, `motion_type = "linear"`, `feed_rate = 100`). -/
def mkPlanPoint (x y orientation : ℝ) : PathPoint :=
  ⟨x, y, 0, orientation, true, "linear", 100⟩

/-- An obstacle descriptor as consumed by the planner: a type tag and the
geometry dictionary's rectangle fields.  The engine reads `width`/`height`
only when the tag is `"rectangle"`. -/
structure Obstacle where
  otype : String
  center_x : ℝ
  center_y : ℝ
  width : ℝ
  height : ℝ

/-- The `PlanningParameters` dataclass. -/
structure PlanningParameters where
  robot_width : ℝ
  overlap_percentage : ℝ
  resolution : ℝ
  wall_width : ℝ
  wall_height : ℝ
  obstacles : List Obstacle

/-- Class constant `RAPID_THRESHOLD = 0.05`. -/
def RAPID_THRESHOLD : ℝ := 0.05

/-- Class constant `AVG_FEED_RATE = 0.1`. -/
def AVG_FEED_RATE : ℝ := 0.1

/-- Class constant `COLLINEAR_TOLERANCE = 0.001`. -/
def COLLINEAR_TOLERANCE : ℝ := 0.001

/-- Python `int(x)`: truncation toward zero. -/
def pyInt (x : ℝ) : ℤ :=
  if 0 ≤ x then ⌊x⌋ else -⌊-x⌋

/-- `numpy.arange(start, stop, step)`: the values `start + i * step` for
`i < ⌈(stop - start) / step⌉`. -/
def arange (start stop step : ℝ) : List ℝ :=
  (List.range (⌈(stop - start) / step⌉).toNat).map (fun (i : ℕ) => start + (i : ℝ) * step)

/-- `robot_width * (1 - overlap_percentage / 100)`, the effective row spacing
computed identically in all three planners. -/
def effectiveWidth (P : PlanningParameters) : ℝ :=
  P.robot_width * (1 - P.overlap_percentage / 100)

/-- `_is_within_bounds`. -/
def is_within_bounds (x y : ℝ) (P : PlanningParameters) : Prop :=
  P.robot_width / 2 ≤ x ∧ x ≤ P.wall_width - P.robot_width / 2 ∧
    P.robot_width / 2 ≤ y ∧ y ≤ P.wall_height - P.robot_width / 2

/-- `_is_point_free`: no rectangle obstacle, expanded by half the robot width,
contains the candidate point.  Non-rectangle obstacle types are skipped,
exactly as in the source. -/
def is_point_free (x y : ℝ) (P : PlanningParameters) : Prop :=
  ∀ obs ∈ P.obstacles, obs.otype = "rectangle" →
    ¬(obs.center_x - obs.width / 2 - P.robot_width / 2 ≤ x ∧
      x ≤ obs.center_x + obs.width / 2 + P.robot_width / 2 ∧
      obs.center_y - obs.height / 2 - P.robot_width / 2 ≤ y ∧
      y ≤ obs.center_y + obs.height / 2 + P.robot_width / 2)

/-- `_calculate_distance`. -/
def calculate_distance (x1 y1 x2 y2 z1 z2 : ℝ) : ℝ :=
  Real.sqrt ((x2 - x1) ^ 2 + (y2 - y1) ^ 2 + (z2 - z1) ^ 2)

/-- One row of `_plan_boustrophedon`: the row at height `y` with row index
`i` (the mutated `direction` variable equals `1` exactly on even rows). -/
def bousRow (P : PlanningParameters) (i : ℕ) (y : ℝ) : List PathPoint :=
  let xs :=
    if i % 2 = 0 then
      arange (P.robot_width / 2) (P.wall_width - P.robot_width / 2) (P.resolution * 1)
    else
      arange (P.wall_width - P.robot_width / 2) (P.robot_width / 2) (P.resolution * (-1))
  xs.filterMap (fun x =>
    if is_point_free x y P then
      some (mkPlanPoint x y (if i % 2 = 0 then 0 else Real.pi))
    else none)

/-- `_plan_boustrophedon`. -/
def plan_boustrophedon (P : PlanningParameters) : List PathPoint :=
  let eff := effectiveWidth P
  ((arange (P.robot_width / 2) (P.wall_height - P.robot_width / 2) eff).enum).flatMap
    (fun iy => bousRow P iy.1 iy.2)

/-- One diagonal pass of `_plan_zigzag` (pass index `i`). -/
def zigzagPass (P : PlanningParameters) (spacing : ℝ) (i : ℕ) : List PathPoint :=
  let x_offset := (i : ℝ) * spacing
  let start_x := x_offset
  let start_y := if i % 2 = 0 then P.robot_width / 2 else P.wall_height - P.robot_width / 2
  let end_x := min (P.wall_width - P.robot_width / 2) (x_offset + P.wall_height)
  let end_y :=
    if i % 2 = 0 then
      min (P.wall_height - P.robot_width / 2) (start_y + (end_x - start_x))
    else
      max (P.robot_width / 2) (start_y - (end_x - start_x))
  let orientation := if i % 2 = 0 then Real.pi / 4 else -(Real.pi / 4)
  let distance := calculate_distance start_x start_y end_x end_y 0 0
  let num_points := max 2 (pyInt (distance / P.resolution)).toNat
  (List.range num_points).filterMap (fun (j : ℕ) =>
    let t := (j : ℝ) / ((max (num_points - 1) 1 : ℕ) : ℝ)
    let x := start_x + t * (end_x - start_x)
    let y := start_y + t * (end_y - start_y)
    if is_point_free x y P then some (mkPlanPoint x y orientation) else none)

/-- `_plan_zigzag`. -/
def plan_zigzag (P : PlanningParameters) : List PathPoint :=
  let spacing := effectiveWidth P / Real.sin (Real.pi / 4)
  let num_passes := (pyInt (P.wall_width / spacing) + 1).toNat
  (List.range num_passes).flatMap (zigzagPass P spacing)

/-- Spiral center x, `wall_width / 2`. -/
def spiralCenterX (P : PlanningParameters) : ℝ := P.wall_width / 2

/-- Spiral center y, `wall_height / 2`. -/
def spiralCenterY (P : PlanningParameters) : ℝ := P.wall_height / 2

/-- `max_radius = min(wall_width, wall_height) / 2 - robot_width / 2`. -/
def spiralMaxRadius (P : PlanningParameters) : ℝ :=
  min P.wall_width P.wall_height / 2 - P.robot_width / 2

/-- `angle_step = resolution / max(radius, 0.01)`. -/
def spiralStep (P : PlanningParameters) (radius : ℝ) : ℝ :=
  P.resolution / max radius 0.01

/-- The `while radius < max_radius` loop of `_plan_spiral`.  The loop body is
translated verbatim; the two extra guard conjuncts (`0 < effectiveWidth P`,
`0 < P.resolution`) delimit the regime in which the Python loop terminates
(with a non-positive effective spacing or step the original loop never
advances the radius), and are exactly the validity conditions of the request
model. -/
def spiralGo (P : PlanningParameters) (radius angle : ℝ) : List PathPoint :=
  if h : radius < spiralMaxRadius P ∧ 0 < effectiveWidth P ∧ 0 < P.resolution then
    (if is_within_bounds (spiralCenterX P + radius * Real.cos angle)
        (spiralCenterY P + radius * Real.sin angle) P ∧
        is_point_free (spiralCenterX P + radius * Real.cos angle)
          (spiralCenterY P + radius * Real.sin angle) P then
      [mkPlanPoint (spiralCenterX P + radius * Real.cos angle)
        (spiralCenterY P + radius * Real.sin angle) (angle + Real.pi / 2)]
    else []) ++
      (if h2 : angle + spiralStep P radius ≥ 2 * Real.pi then
        spiralGo P (radius + effectiveWidth P) 0
      else
        spiralGo P radius (angle + spiralStep P radius))
  else []
termination_by
  (⌈(spiralMaxRadius P - radius) / effectiveWidth P⌉.toNat,
   ⌈(2 * Real.pi - angle) / spiralStep P radius⌉.toNat)
decreasing_by
  · apply Prod.Lex.left
    have hq : (0:ℝ) < (spiralMaxRadius P - radius) / effectiveWidth P :=
      div_pos (by linarith [h.1]) h.2.1
    have hceil : 0 < ⌈(spiralMaxRadius P - radius) / effectiveWidth P⌉ :=
      Int.ceil_pos.mpr hq
    have heq : (spiralMaxRadius P - (radius + effectiveWidth P)) / effectiveWidth P
        = (spiralMaxRadius P - radius) / effectiveWidth P - 1 := by
      rw [show spiralMaxRadius P - (radius + effectiveWidth P)
          = spiralMaxRadius P - radius - effectiveWidth P by ring,
        sub_div, div_self h.2.1.ne']
    have hc : ⌈(spiralMaxRadius P - (radius + effectiveWidth P)) / effectiveWidth P⌉
        = ⌈(spiralMaxRadius P - radius) / effectiveWidth P⌉ - 1 := by
      rw [heq]; exact Int.ceil_sub_one _
    omega
  · apply Prod.Lex.right
    have hstep : (0:ℝ) < spiralStep P radius :=
      div_pos h.2.2 (lt_max_of_lt_right (by norm_num))
    have hq1 : 1 < (2 * Real.pi - angle) / spiralStep P radius := by
      rw [lt_div_iff₀ hstep]
      push_neg at h2
      linarith
    have hceil : 0 < ⌈(2 * Real.pi - angle) / spiralStep P radius⌉ :=
      Int.ceil_pos.mpr (by linarith)
    have heq : (2 * Real.pi - (angle + spiralStep P radius)) / spiralStep P radius
        = (2 * Real.pi - angle) / spiralStep P radius - 1 := by
      rw [show 2 * Real.pi - (angle + spiralStep P radius)
          = 2 * Real.pi - angle - spiralStep P radius by ring,
        sub_div, div_self hstep.ne']
    have hc : ⌈(2 * Real.pi - (angle + spiralStep P radius)) / spiralStep P radius⌉
        = ⌈(2 * Real.pi - angle) / spiralStep P radius⌉ - 1 := by
      rw [heq]; exact Int.ceil_sub_one _
    omega

/-- `_plan_spiral`: the loop started at `radius = robot_width / 2`,
`angle = 0`. -/
def plan_spiral (P : PlanningParameters) : List PathPoint :=
  spiralGo P (P.robot_width / 2) 0

/-- The `while` loop of `_plan_spiral` translated verbatim with explicit
fuel: `none` means the fuel ran out before the loop condition became false.
This is the direct embedding of the source loop; `spiralGo` is its
terminating presentation. -/
def spiralFuel (P : PlanningParameters) : ℕ → ℝ → ℝ → Option (List PathPoint)
  | 0, radius, _ => if radius < spiralMaxRadius P then none else some []
  | n + 1, radius, angle =>
    if radius < spiralMaxRadius P then
      (if angle + spiralStep P radius ≥ 2 * Real.pi then
        spiralFuel P n (radius + effectiveWidth P) 0
      else
        spiralFuel P n radius (angle + spiralStep P radius)).map
        ((if is_within_bounds (spiralCenterX P + radius * Real.cos angle)
            (spiralCenterY P + radius * Real.sin angle) P ∧
            is_point_free (spiralCenterX P + radius * Real.cos angle)
              (spiralCenterY P + radius * Real.sin angle) P then
          [mkPlanPoint (spiralCenterX P + radius * Real.cos angle)
            (spiralCenterY P + radius * Real.sin angle) (angle + Real.pi / 2)]
        else []) ++ ·)
    else some []

/-- First loop of `GeometryUtils.normalize_angle`:
`while angle > pi: angle -= 2 * pi`. -/
def normLoopSub (angle : ℝ) : ℝ :=
  if h : angle > Real.pi then normLoopSub (angle - 2 * Real.pi) else angle
termination_by ⌈(angle - Real.pi) / (2 * Real.pi)⌉.toNat
decreasing_by
  have hpi := Real.pi_pos
  have h2pi : (0:ℝ) < 2 * Real.pi := by linarith
  have hq : (0:ℝ) < (angle - Real.pi) / (2 * Real.pi) := div_pos (by linarith) h2pi
  have hceil := Int.ceil_pos.mpr hq
  have heq : (angle - 2 * Real.pi - Real.pi) / (2 * Real.pi)
      = (angle - Real.pi) / (2 * Real.pi) - 1 := by
    rw [show angle - 2 * Real.pi - Real.pi = angle - Real.pi - 2 * Real.pi by ring,
      sub_div, div_self h2pi.ne']
  have hc : ⌈(angle - 2 * Real.pi - Real.pi) / (2 * Real.pi)⌉
      = ⌈(angle - Real.pi) / (2 * Real.pi)⌉ - 1 := by
    rw [heq]; exact Int.ceil_sub_one _
  omega

/-- Second loop of `GeometryUtils.normalize_angle`:
`while angle < -pi: angle += 2 * pi`. -/
def normLoopAdd (angle : ℝ) : ℝ :=
  if h : angle < -Real.pi then normLoopAdd (angle + 2 * Real.pi) else angle
termination_by ⌈(-Real.pi - angle) / (2 * Real.pi)⌉.toNat
decreasing_by
  have hpi := Real.pi_pos
  have h2pi : (0:ℝ) < 2 * Real.pi := by linarith
  have hq : (0:ℝ) < (-Real.pi - angle) / (2 * Real.pi) := div_pos (by linarith) h2pi
  have hceil := Int.ceil_pos.mpr hq
  have heq : (-Real.pi - (angle + 2 * Real.pi)) / (2 * Real.pi)
      = (-Real.pi - angle) / (2 * Real.pi) - 1 := by
    rw [show -Real.pi - (angle + 2 * Real.pi) = -Real.pi - angle - 2 * Real.pi by ring,
      sub_div, div_self h2pi.ne']
  have hc : ⌈(-Real.pi - (angle + 2 * Real.pi)) / (2 * Real.pi)⌉
      = ⌈(-Real.pi - angle) / (2 * Real.pi)⌉ - 1 := by
    rw [heq]; exact Int.ceil_sub_one _
  omega

/-- `GeometryUtils.normalize_angle`. -/
def normalize_angle (angle : ℝ) : ℝ :=
  normLoopAdd (normLoopSub angle)

/-- `_is_collinear`. -/
def is_collinear (p1 p2 p3 : PathPoint) : Prop :=
  |(p2.x - p1.x) * (p3.y - p1.y) - (p2.y - p1.y) * (p3.x - p1.x)| < COLLINEAR_TOLERANCE

/-- The interior loop of `_optimize_path`: `prev` is the original predecessor
`path_points[i-1]`, the list argument is `path_points[i:]`; the final point is
always kept. -/
def pruneAux : PathPoint → List PathPoint → List PathPoint
  | _, [] => []
  | _, [last] => [last]
  | prev, curr :: next :: rest =>
    if is_collinear prev curr next then pruneAux curr (next :: rest)
    else curr :: pruneAux curr (next :: rest)

/-- The synthetic rapid point `_add_connecting_moves` inserts: the next
point's `(x, y)`, `z = 0`, tool inactive, motion type `"rapid"` (orientation
and feed rate keep the dataclass defaults). -/
def rapidPoint (p : PathPoint) : PathPoint :=
  ⟨p.x, p.y, 0, 0, false, "rapid", 100⟩

/-- The loop of `_add_connecting_moves`, walking consecutive pairs. -/
def addMovesAux : PathPoint → List PathPoint → List PathPoint
  | _, [] => []
  | prev, curr :: rest =>
    (if calculate_distance prev.x prev.y curr.x curr.y 0 0 > RAPID_THRESHOLD then
      [rapidPoint curr] else [])
      ++ curr :: addMovesAux curr rest

/-- `_add_connecting_moves`. -/
def add_connecting_moves : List PathPoint → List PathPoint
  | [] => []
  | [p] => [p]
  | p :: rest => p :: addMovesAux p rest

/-- `_optimize_path`: collinear pruning keeping first and last, then rapid
move insertion. -/
def optimize_path (pts : List PathPoint) : List PathPoint :=
  match pts with
  | [] => []
  | [p] => [p]
  | p :: rest => add_connecting_moves (p :: pruneAux p rest)

/-- The result fields of `_calculate_path_metrics` (the internal
`cutting_length` accumulator is surfaced as a field). -/
structure PathMetrics where
  total_length : ℝ
  cutting_length : ℝ
  coverage_percentage : ℝ
  estimated_duration : ℝ

/-- The accumulation loop of `_calculate_path_metrics`: given the previous
point and the remaining points, the pair (total length, cutting length). -/
def segmentLengths : PathPoint → List PathPoint → ℝ × ℝ
  | _, [] => (0, 0)
  | prev, curr :: rest =>
    let seg := calculate_distance prev.x prev.y curr.x curr.y prev.z curr.z
    let tc := segmentLengths curr rest
    (seg + tc.1, if curr.tool_active then seg + tc.2 else tc.2)

/-- `sum(obs.width * obs.height for rectangle obstacles)`. -/
def obstacle_area (P : PlanningParameters) : ℝ :=
  ((P.obstacles.filter (fun o => o.otype == "rectangle")).map
    (fun o => o.width * o.height)).sum

/-- `_calculate_path_metrics`. -/
def calculate_path_metrics (pts : List PathPoint) (P : PlanningParameters) :
    PathMetrics :=
  match pts with
  | [] => ⟨0, 0, 0, 0⟩
  | p :: rest =>
    let tc := segmentLengths p rest
    let total_length := tc.1
    let cutting_length := tc.2
    let wall_area := P.wall_width * P.wall_height
    let effective_area := wall_area - obstacle_area P
    let covered_area := cutting_length * P.robot_width
    let coverage_percentage :=
      if effective_area > 0 then min 100 ((covered_area / effective_area) * 100)
      else 0
    let estimated_duration :=
      if AVG_FEED_RATE > 0 then cutting_length / AVG_FEED_RATE else 0
    ⟨total_length, cutting_length, coverage_percentage, estimated_duration⟩

/-- Independent recomputation (written from the spec's words, for the
round-trip claim about `total_length`): the sum over consecutive pairs of the
3D Euclidean distance between them. -/
def totalLengthSpec (pts : List PathPoint) : ℝ :=
  ((pts.zip pts.tail).map (fun q =>
    calculate_distance q.1.x q.1.y q.2.x q.2.y q.1.z q.2.z)).sum

/-- Independent recomputation (written from the spec's words): the sum of
exactly those consecutive segments whose destination point is active. -/
def cuttingLengthSpec (pts : List PathPoint) : ℝ :=
  (((pts.zip pts.tail).filter (fun q => q.2.tool_active)).map (fun q =>
    calculate_distance q.1.x q.1.y q.2.x q.2.y q.1.z q.2.z)).sum

/-- Written from the spec's words for the rapid-move insertion step: keep the
first point, then for every consecutive pair `(a, b)` of the input emit the
synthetic rapid point (at `b`'s position, `z = 0`, inactive, motion type
rapid) exactly when the 2D distance from `a` to `b` exceeds the rapid
threshold, followed by `b` itself, so existing points are kept unchanged. -/
def add_connecting_moves_spec (pts : List PathPoint) : List PathPoint :=
  match pts with
  | [] => []
  | p :: _ =>
    p :: (pts.zip pts.tail).flatMap (fun q =>
      (if calculate_distance q.1.x q.1.y q.2.x q.2.y 0 0 > RAPID_THRESHOLD then
        [rapidPoint q.2] else []) ++ [q.2])

/-- The planning request (`TrajectoryPlanRequest` pydantic model).  Numeric
fields are rationals so that the request validation is decidable. -/
structure TrajectoryPlanRequest where
  wall_id : ℤ
  algorithm : String
  robot_width : ℚ
  overlap_percentage : ℚ
  resolution : ℚ

/-- The pydantic `Field` constraints of `TrajectoryPlanRequest`:
`robot_width` in `(0, 1]`, `overlap_percentage` in `[0, 50]`, `resolution`
in `(0, 0.1]`.  A request violating them is rejected before the planning
service runs. -/
def validTrajectoryPlanRequest (r : TrajectoryPlanRequest) : Prop :=
  0 < r.robot_width ∧ r.robot_width ≤ 1 ∧
    0 ≤ r.overlap_percentage ∧ r.overlap_percentage ≤ 50 ∧
    0 < r.resolution ∧ r.resolution ≤ 1 / 10

instance (r : TrajectoryPlanRequest) : Decidable (validTrajectoryPlanRequest r) := by
  unfold validTrajectoryPlanRequest
  infer_instance

/-- The error kinds of the planning entry point: rejection by request
validation, and `_execute_algorithm`'s unknown-algorithm failure. -/
inductive PlanError
  | invalidParameter
  | unknownAlgorithm
  deriving DecidableEq

/-- `_prepare_planning_parameters`: the planning parameters assembled from a
validated request and the wall snapshot. -/
def requestParameters (r : TrajectoryPlanRequest) (wall_width wall_height : ℝ)
    (obstacles : List Obstacle) : PlanningParameters :=
  ⟨(r.robot_width : ℝ), (r.overlap_percentage : ℝ), (r.resolution : ℝ),
    wall_width, wall_height, obstacles⟩

/-- The planning entry point up to point generation: the request is checked
against the pydantic field constraints first (as in the HTTP layer); only a
valid request reaches `_execute_algorithm`'s name dispatch and a planner. -/
def plan_pipeline (r : TrajectoryPlanRequest) (wall_width wall_height : ℝ)
    (obstacles : List Obstacle) : Except PlanError (List PathPoint) :=
  if validTrajectoryPlanRequest r then
    let P := requestParameters r wall_width wall_height obstacles
    if r.algorithm = "boustrophedon" then .ok (plan_boustrophedon P)
    else if r.algorithm = "spiral" then .ok (plan_spiral P)
    else if r.algorithm = "zigzag" then .ok (plan_zigzag P)
    else .error .unknownAlgorithm
  else .error .invalidParameter

/-! ## Helper lemmas -/

theorem segmentLengths_eq_spec (p : PathPoint) (rest : List PathPoint) :
    segmentLengths p rest
      = (totalLengthSpec (p :: rest), cuttingLengthSpec (p :: rest)) := by
  induction rest generalizing p with
  | nil => simp [segmentLengths, totalLengthSpec, cuttingLengthSpec]
  | cons q rest ih =>
    simp only [segmentLengths, ih q, totalLengthSpec, cuttingLengthSpec,
      List.tail_cons, List.zip_cons_cons, List.map_cons, List.sum_cons,
      List.filter_cons, Prod.mk.injEq]
    refine ⟨trivial, ?_⟩
    by_cases hq : q.tool_active <;> simp [hq]

theorem addMovesAux_eq_spec (prev : PathPoint) (l : List PathPoint) :
    addMovesAux prev l = ((prev :: l).zip l).flatMap (fun q =>
      (if calculate_distance q.1.x q.1.y q.2.x q.2.y 0 0 > RAPID_THRESHOLD then
        [rapidPoint q.2] else []) ++ [q.2]) := by
  induction l generalizing prev with
  | nil => simp [addMovesAux]
  | cons c rest ih => simp [addMovesAux, ih c]

theorem segmentLengths_nonneg (p : PathPoint) (rest : List PathPoint) :
    0 ≤ (segmentLengths p rest).1 ∧ 0 ≤ (segmentLengths p rest).2 := by
  induction rest generalizing p with
  | nil => simp [segmentLengths]
  | cons q rest ih =>
    have hd : 0 ≤ calculate_distance p.x p.y q.x q.y p.z q.z :=
      Real.sqrt_nonneg _
    obtain ⟨h1, h2⟩ := ih q
    simp only [segmentLengths]
    refine ⟨by linarith, ?_⟩
    by_cases hq : q.tool_active <;> simp [hq] <;> linarith

theorem pruneAux_ne_nil (prev : PathPoint) (l : List PathPoint) (h : l ≠ []) :
    pruneAux prev l ≠ [] := by
  induction l generalizing prev with
  | nil => simp at h
  | cons c rest ih =>
    cases rest with
    | nil => simp [pruneAux]
    | cons d rest2 =>
      simp only [pruneAux]
      by_cases hc : is_collinear prev c d
      · rw [if_pos hc]; exact ih c (by simp)
      · rw [if_neg hc]; simp

theorem pruneAux_getLast (prev : PathPoint) (l : List PathPoint) (h : l ≠ []) :
    (pruneAux prev l).getLast? = l.getLast? := by
  induction l generalizing prev with
  | nil => simp at h
  | cons c rest ih =>
    cases rest with
    | nil => rfl
    | cons d rest2 =>
      simp only [pruneAux]
      by_cases hc : is_collinear prev c d
      · rw [if_pos hc, ih c (by simp), List.getLast?_cons_cons]
      · rw [if_neg hc]
        obtain ⟨a, t, ht⟩ := List.exists_cons_of_ne_nil (pruneAux_ne_nil c (d :: rest2) (by simp))
        rw [ht, List.getLast?_cons_cons, ← ht, ih c (by simp), List.getLast?_cons_cons]

theorem addMovesAux_ne_nil (prev c : PathPoint) (rest : List PathPoint) :
    addMovesAux prev (c :: rest) ≠ [] := by
  simp only [addMovesAux]
  by_cases hd : calculate_distance prev.x prev.y c.x c.y 0 0 > RAPID_THRESHOLD <;>
    simp [hd]

theorem addMovesAux_getLast (prev : PathPoint) (l : List PathPoint) (h : l ≠ []) :
    (addMovesAux prev l).getLast? = l.getLast? := by
  induction l generalizing prev with
  | nil => simp at h
  | cons c rest ih =>
    cases rest with
    | nil =>
      simp only [addMovesAux]
      by_cases hd : calculate_distance prev.x prev.y c.x c.y 0 0 > RAPID_THRESHOLD <;>
        simp [hd, addMovesAux]
    | cons d rest2 =>
      rw [addMovesAux]
      obtain ⟨a, t, ht⟩ := List.exists_cons_of_ne_nil (addMovesAux_ne_nil c d rest2)
      rw [List.getLast?_append_of_ne_nil _ (by simp), ht, List.getLast?_cons_cons,
        ← ht, ih c (by simp), List.getLast?_cons_cons]

theorem mem_arange_pos (start stop step : ℝ) (hstep : 0 < step) (x : ℝ)
    (hx : x ∈ arange start stop step) : start ≤ x ∧ x < stop := by
  rw [arange] at hx
  obtain ⟨i, hi, rfl⟩ := List.mem_map.mp hx
  rw [List.mem_range] at hi
  have h1 : (i : ℤ) < ⌈(stop - start) / step⌉ := by omega
  have h2 : (i : ℝ) < (stop - start) / step := by
    have hceil := Int.ceil_lt_add_one ((stop - start) / step)
    have h3 : ((i : ℝ) + 1) ≤ ((⌈(stop - start) / step⌉ : ℤ) : ℝ) := by
      exact_mod_cast h1
    linarith
  have h4 : (i : ℝ) * step < stop - start := by
    have h5 := mul_lt_mul_of_pos_right h2 hstep
    rwa [div_mul_cancel₀ _ hstep.ne'] at h5
  have h6 : 0 ≤ (i : ℝ) * step := mul_nonneg (Nat.cast_nonneg i) hstep.le
  exact ⟨by linarith, by linarith⟩

theorem mem_arange_neg (start stop step : ℝ) (hstep : step < 0) (x : ℝ)
    (hx : x ∈ arange start stop step) : stop < x ∧ x ≤ start := by
  rw [arange] at hx
  obtain ⟨i, hi, rfl⟩ := List.mem_map.mp hx
  rw [List.mem_range] at hi
  have h1 : (i : ℤ) < ⌈(stop - start) / step⌉ := by omega
  have h2 : (i : ℝ) < (stop - start) / step := by
    have hceil := Int.ceil_lt_add_one ((stop - start) / step)
    have h3 : ((i : ℝ) + 1) ≤ ((⌈(stop - start) / step⌉ : ℤ) : ℝ) := by
      exact_mod_cast h1
    linarith
  have h4 : stop - start < (i : ℝ) * step := by
    have h5 := mul_lt_mul_of_neg_right h2 hstep
    rwa [div_mul_cancel₀ _ hstep.ne] at h5
  have h6 : (i : ℝ) * step ≤ 0 := by
    have h7 : (0 : ℝ) ≤ (i : ℝ) := Nat.cast_nonneg i
    nlinarith
  exact ⟨by linarith, by linarith⟩

theorem mem_bousRow (P : PlanningParameters) (i : ℕ) (y : ℝ) (p : PathPoint)
    (hp : p ∈ bousRow P i y) :
    ∃ x, ((i % 2 = 0 ∧
        x ∈ arange (P.robot_width / 2) (P.wall_width - P.robot_width / 2)
          (P.resolution * 1)) ∨
      (¬i % 2 = 0 ∧
        x ∈ arange (P.wall_width - P.robot_width / 2) (P.robot_width / 2)
          (P.resolution * (-1)))) ∧
      p = mkPlanPoint x y (if i % 2 = 0 then 0 else Real.pi) := by
  rw [bousRow] at hp
  obtain ⟨x, hx, hfx⟩ := List.mem_filterMap.mp hp
  rw [Option.ite_none_right_eq_some] at hfx
  refine ⟨x, ?_, (Option.some.inj hfx.2).symm⟩
  by_cases hi : i % 2 = 0
  · exact Or.inl ⟨hi, by simpa [hi] using hx⟩
  · exact Or.inr ⟨hi, by simpa [hi] using hx⟩

theorem mem_zigzagPass (P : PlanningParameters) (spacing : ℝ) (i : ℕ)
    (p : PathPoint) (hp : p ∈ zigzagPass P spacing i) :
    ∃ x y, p = mkPlanPoint x y (if i % 2 = 0 then Real.pi / 4 else -(Real.pi / 4)) := by
  rw [zigzagPass] at hp
  obtain ⟨j, hj, hfj⟩ := List.mem_filterMap.mp hp
  rw [Option.ite_none_right_eq_some] at hfj
  exact ⟨_, _, (Option.some.inj hfj.2).symm⟩

theorem spiralGo_forall (P : PlanningParameters) (mot : PathPoint → Prop)
    (H : ∀ radius angle : ℝ, 0 ≤ angle → angle < 2 * Real.pi →
      is_within_bounds (spiralCenterX P + radius * Real.cos angle)
        (spiralCenterY P + radius * Real.sin angle) P →
      mot (mkPlanPoint (spiralCenterX P + radius * Real.cos angle)
        (spiralCenterY P + radius * Real.sin angle) (angle + Real.pi / 2))) :
    ∀ radius angle : ℝ, 0 ≤ angle → angle < 2 * Real.pi →
      ∀ p ∈ spiralGo P radius angle, mot p := by
  intro radius angle
  induction radius, angle using spiralGo.induct P with
  | case1 radius angle h ih1 ih2 =>
    intro ha0 ha2 p hp
    rw [spiralGo, dif_pos h] at hp
    rcases List.mem_append.mp hp with hp1 | hp2
    · split at hp1
      next hb =>
        rcases List.mem_singleton.mp hp1 with rfl
        exact H radius angle ha0 ha2 hb.1
      next => exact absurd hp1 (by simp)
    · split at hp2
      next h2 => exact ih1 le_rfl Real.two_pi_pos p hp2
      next h2 =>
        have hstep : 0 < spiralStep P radius :=
          div_pos h.2.2 (lt_max_of_lt_right (by norm_num))
        refine ih2 h2 (by linarith) ?_ p hp2
        push_neg at h2
        linarith
  | case2 radius angle h =>
    intro _ _ p hp
    rw [spiralGo, dif_neg h] at hp
    exact absurd hp (by simp)

theorem normLoopSub_le (angle : ℝ) : normLoopSub angle ≤ Real.pi := by
  induction angle using normLoopSub.induct with
  | case1 angle h ih => rw [normLoopSub, dif_pos h]; exact ih
  | case2 angle h => rw [normLoopSub, dif_neg h]; exact not_lt.mp h

theorem normLoopAdd_ge (angle : ℝ) : -Real.pi ≤ normLoopAdd angle := by
  induction angle using normLoopAdd.induct with
  | case1 angle h ih => rw [normLoopAdd, dif_pos h]; exact ih
  | case2 angle h => rw [normLoopAdd, dif_neg h]; exact not_lt.mp h

theorem normLoopAdd_le (angle : ℝ) :
    angle ≤ Real.pi → normLoopAdd angle ≤ Real.pi := by
  induction angle using normLoopAdd.induct with
  | case1 angle h ih =>
    intro _
    rw [normLoopAdd, dif_pos h]
    apply ih
    have := Real.pi_pos
    linarith
  | case2 angle h =>
    intro hle
    rw [normLoopAdd, dif_neg h]
    exact hle

/-! ## Claims -/

/-- C2: for every planning request with `overlap_percentage = 100`, planning
fails with an `InvalidParameter` error before any point generation begins:
the request violates the `overlap_percentage ≤ 50` field constraint, so the
pipeline rejects it and no planner is ever invoked, hence no points are
produced. -/
theorem overlap100_rejected (r : TrajectoryPlanRequest) (W H : ℝ)
    (obs : List Obstacle) (h : r.overlap_percentage = 100) :
    plan_pipeline r W H obs = Except.error PlanError.invalidParameter := by
  have hv : ¬validTrajectoryPlanRequest r := by
    intro hv
    rcases hv with ⟨_, _, _, h50, _, _⟩
    rw [h] at h50
    norm_num at h50
  simp [plan_pipeline, hv]

/-- Witness for C2 at a concrete request with `overlap_percentage = 100`. -/
def overlapRequest : TrajectoryPlanRequest :=
  ⟨1, "boustrophedon", 1 / 10, 100, 1 / 100⟩

/-- C2 witness: the concrete request with overlap 100 is rejected. -/
theorem overlap100_rejected_witness :
    overlapRequest.overlap_percentage = 100 ∧
      plan_pipeline overlapRequest 5 5 [] = Except.error PlanError.invalidParameter :=
  ⟨rfl, overlap100_rejected overlapRequest 5 5 [] rfl⟩

/-- C5: the metrics calculator's `total_length` equals the independently
recomputed sum over consecutive pairs of the 3D Euclidean distance, and its
`cutting_length` equals the sum of exactly those segments whose destination
point has the active flag set. -/
theorem metrics_lengths_eq_spec (pts : List PathPoint) (P : PlanningParameters) :
    (calculate_path_metrics pts P).total_length = totalLengthSpec pts ∧
      (calculate_path_metrics pts P).cutting_length = cuttingLengthSpec pts := by
  cases pts with
  | nil => simp [calculate_path_metrics, totalLengthSpec, cuttingLengthSpec]
  | cons p rest => simp [calculate_path_metrics, segmentLengths_eq_spec]

/-- C3: for every point sequence and every parameter set with a nonnegative
robot width — including obstacle lists whose summed rectangle area is at
least the surface area, making the effective area nonpositive — the
`coverage_percentage` returned by the metrics calculator lies in `[0, 100]`. -/
theorem coverage_percentage_bounds (pts : List PathPoint) (P : PlanningParameters)
    (hrw : 0 ≤ P.robot_width) :
    0 ≤ (calculate_path_metrics pts P).coverage_percentage ∧
      (calculate_path_metrics pts P).coverage_percentage ≤ 100 := by
  cases pts with
  | nil => simp [calculate_path_metrics]
  | cons p rest =>
    simp only [calculate_path_metrics]
    by_cases he : P.wall_width * P.wall_height - obstacle_area P > 0
    · rw [if_pos he]
      have hc : 0 ≤ (segmentLengths p rest).2 := (segmentLengths_nonneg p rest).2
      refine ⟨le_min (by norm_num) ?_, min_le_left _ _⟩
      have := div_nonneg (mul_nonneg hc hrw) he.le
      linarith
    · rw [if_neg he]
      norm_num

/-- Concrete parameters used by the C3 witness. -/
def metricsParams : PlanningParameters := ⟨1 / 10, 20, 1 / 100, 5, 5, []⟩

/-- Concrete point sequence used by the C3 witness. -/
def metricsPts : List PathPoint := [mkPlanPoint 0 0 0, mkPlanPoint 1 0 0]

/-- C3 witness: the bound at a concrete sequence and parameter set. -/
theorem coverage_percentage_bounds_witness :
    0 ≤ metricsParams.robot_width ∧
      (0 ≤ (calculate_path_metrics metricsPts metricsParams).coverage_percentage ∧
        (calculate_path_metrics metricsPts metricsParams).coverage_percentage ≤ 100) :=
  ⟨by norm_num [metricsParams],
    coverage_percentage_bounds metricsPts metricsParams (by norm_num [metricsParams])⟩

/-- C6: for every input sequence with at least two points, the optimizer's
output begins with the input's first point and ends with the input's last
point. -/
theorem optimize_path_endpoints (pts : List PathPoint) (h : 2 ≤ pts.length) :
    (optimize_path pts).head? = pts.head? ∧
      (optimize_path pts).getLast? = pts.getLast? := by
  match pts with
  | p :: q :: rest =>
    obtain ⟨c, l, hcl⟩ :=
      List.exists_cons_of_ne_nil (pruneAux_ne_nil p (q :: rest) (by simp))
    have hopt : optimize_path (p :: q :: rest)
        = p :: addMovesAux p (c :: l) := by
      show add_connecting_moves (p :: pruneAux p (q :: rest))
          = p :: addMovesAux p (c :: l)
      rw [hcl]
      rfl
    constructor
    · rw [hopt]; rfl
    · rw [hopt]
      obtain ⟨a, t, ht⟩ := List.exists_cons_of_ne_nil (addMovesAux_ne_nil p c l)
      rw [ht, List.getLast?_cons_cons, ← ht, addMovesAux_getLast p (c :: l) (by simp),
        ← hcl, pruneAux_getLast p (q :: rest) (by simp), List.getLast?_cons_cons]

/-- Concrete input used by the C6 witness. -/
def optimizePts : List PathPoint := [mkPlanPoint 0 0 0, mkPlanPoint 1 1 0]

/-- C6 witness: endpoint preservation at a concrete two-point input. -/
theorem optimize_path_endpoints_witness :
    2 ≤ optimizePts.length ∧
      ((optimize_path optimizePts).head? = optimizePts.head? ∧
        (optimize_path optimizePts).getLast? = optimizePts.getLast?) :=
  ⟨by norm_num [optimizePts],
    optimize_path_endpoints optimizePts (by norm_num [optimizePts])⟩

/-- C10: every PathPoint produced by any of the three planners (before
optimization) has `z = 0`, active flag true, motion type linear and feed rate
100: the planners set only `x`, `y` and orientation, leaving the remaining
dataclass fields at their defaults. -/
theorem planner_points_default_fields (P : PlanningParameters) :
    ((plan_boustrophedon P).Forall (fun p =>
      p.z = 0 ∧ p.tool_active = true ∧ p.motion_type = "linear" ∧ p.feed_rate = 100)) ∧
    ((plan_spiral P).Forall (fun p =>
      p.z = 0 ∧ p.tool_active = true ∧ p.motion_type = "linear" ∧ p.feed_rate = 100)) ∧
    ((plan_zigzag P).Forall (fun p =>
      p.z = 0 ∧ p.tool_active = true ∧ p.motion_type = "linear" ∧ p.feed_rate = 100)) := by
  refine ⟨List.forall_iff_forall_mem.mpr ?_, List.forall_iff_forall_mem.mpr ?_,
    List.forall_iff_forall_mem.mpr ?_⟩
  · intro p hp
    rw [plan_boustrophedon] at hp
    obtain ⟨iy, hiy, hrow⟩ := List.mem_flatMap.mp hp
    obtain ⟨x, hx, rfl⟩ := mem_bousRow P iy.1 iy.2 p hrow
    simp [mkPlanPoint]
  · intro p hp
    rw [plan_spiral] at hp
    exact spiralGo_forall P (fun q =>
        q.z = 0 ∧ q.tool_active = true ∧ q.motion_type = "linear" ∧ q.feed_rate = 100)
      (fun r a _ _ _ => by simp [mkPlanPoint]) _ 0 le_rfl Real.two_pi_pos p hp
  · intro p hp
    rw [plan_zigzag] at hp
    obtain ⟨i, hi, hpass⟩ := List.mem_flatMap.mp hp
    obtain ⟨x, y, rfl⟩ := mem_zigzagPass P _ i p hpass
    simp [mkPlanPoint]

/-- C1 (amended): for every valid parameter set (positive robot width,
overlap fraction in `[0, 1)`, positive resolution, positive surface
dimensions), every point emitted by the boustrophedon and spiral planners
satisfies the shrunk-rectangle bounds predicate.  The zigzag planner does
not satisfy it: its passes start at `x = i * spacing`, unclipped (see the
counterexample). -/
theorem bous_spiral_points_in_bounds (P : PlanningParameters)
    (hrw : 0 < P.robot_width) (hop0 : 0 ≤ P.overlap_percentage)
    (hop1 : P.overlap_percentage < 100) (hres : 0 < P.resolution)
    (hW : 0 < P.wall_width) (hH : 0 < P.wall_height) :
    ((plan_boustrophedon P).Forall (fun p => is_within_bounds p.x p.y P)) ∧
    ((plan_spiral P).Forall (fun p => is_within_bounds p.x p.y P)) := by
  have heff : 0 < effectiveWidth P := by
    rw [effectiveWidth]
    apply mul_pos hrw
    linarith
  constructor
  · rw [List.forall_iff_forall_mem]
    intro p hp
    rw [plan_boustrophedon] at hp
    obtain ⟨iy, hiy, hrow⟩ := List.mem_flatMap.mp hp
    have hy : iy.2 ∈ arange (P.robot_width / 2)
        (P.wall_height - P.robot_width / 2) (effectiveWidth P) :=
      List.getElem?_mem (List.mem_enum_iff_getElem?.mp hiy)
    obtain ⟨hy1, hy2⟩ := mem_arange_pos _ _ _ heff _ hy
    obtain ⟨x, hx, rfl⟩ := mem_bousRow P iy.1 iy.2 p hrow
    rcases hx with ⟨_, hxA⟩ | ⟨_, hxB⟩
    · obtain ⟨hx1, hx2⟩ :=
        mem_arange_pos _ _ _ (by linarith : (0:ℝ) < P.resolution * 1) _ hxA
      simp only [mkPlanPoint, is_within_bounds]
      exact ⟨by linarith, by linarith, by linarith, by linarith⟩
    · obtain ⟨hx1, hx2⟩ :=
        mem_arange_neg _ _ _ (mul_neg_of_pos_of_neg hres (by norm_num)) _ hxB
      simp only [mkPlanPoint, is_within_bounds]
      exact ⟨by linarith, by linarith, by linarith, by linarith⟩
  · rw [List.forall_iff_forall_mem]
    intro p hp
    rw [plan_spiral] at hp
    exact spiralGo_forall P (fun q => is_within_bounds q.x q.y P)
      (fun r a _ _ hb => by simpa [mkPlanPoint] using hb) _ 0
      le_rfl Real.two_pi_pos p hp

/-- Concrete valid parameters for the C1 witness. -/
def boundsParams : PlanningParameters := ⟨1 / 10, 20, 1 / 100, 5, 5, []⟩

/-- C1 witness: the amended bounds statement at a concrete valid parameter
set. -/
theorem bous_spiral_points_in_bounds_witness :
    (0 < boundsParams.robot_width ∧ 0 ≤ boundsParams.overlap_percentage ∧
      boundsParams.overlap_percentage < 100 ∧ 0 < boundsParams.resolution ∧
      0 < boundsParams.wall_width ∧ 0 < boundsParams.wall_height) ∧
    (((plan_boustrophedon boundsParams).Forall
        (fun p => is_within_bounds p.x p.y boundsParams)) ∧
      ((plan_spiral boundsParams).Forall
        (fun p => is_within_bounds p.x p.y boundsParams))) :=
  ⟨by norm_num [boundsParams],
    bous_spiral_points_in_bounds boundsParams (by norm_num [boundsParams])
      (by norm_num [boundsParams]) (by norm_num [boundsParams])
      (by norm_num [boundsParams]) (by norm_num [boundsParams])
      (by norm_num [boundsParams])⟩

/-- Valid parameters on which the zigzag planner leaves the shrunk
rectangle. -/
def zigzagCEParams : PlanningParameters := ⟨1 / 10, 20, 1 / 20, 5, 5, []⟩

/-- The first point of the first zigzag pass: the pass starts at
`x = 0 * spacing = 0` and `y = robot_width / 2`, and with no obstacles the
free-space test accepts it, so it is emitted. -/
theorem zigzag_first_point_mem (P : PlanningParameters)
    (hobs : P.obstacles = []) (hW : 0 ≤ P.wall_width)
    (heff : 0 < effectiveWidth P) :
    mkPlanPoint 0 (P.robot_width / 2) (Real.pi / 4) ∈ plan_zigzag P := by
  have hsin : (0:ℝ) < Real.sin (Real.pi / 4) := by
    rw [Real.sin_pi_div_four]; positivity
  have hspacing : 0 < effectiveWidth P / Real.sin (Real.pi / 4) :=
    div_pos heff hsin
  simp only [plan_zigzag]
  apply List.mem_flatMap.mpr
  refine ⟨0, ?_, ?_⟩
  · rw [List.mem_range]
    have hq : (0:ℝ) ≤ P.wall_width / (effectiveWidth P / Real.sin (Real.pi / 4)) :=
      div_nonneg hW hspacing.le
    have hpy : 0 ≤ pyInt (P.wall_width / (effectiveWidth P / Real.sin (Real.pi / 4))) := by
      rw [pyInt, if_pos hq]
      exact Int.floor_nonneg.mpr hq
    omega
  · simp only [zigzagPass]
    apply List.mem_filterMap.mpr
    refine ⟨0, ?_, ?_⟩
    · rw [List.mem_range]
      exact lt_of_lt_of_le (by norm_num) (le_max_left 2 _)
    · rw [Option.ite_none_right_eq_some]
      refine ⟨?_, ?_⟩
      · simp [is_point_free, hobs]
      · simp [mkPlanPoint]

/-- C1 counterexample: at a concrete valid parameter set (robot width `0.1`,
overlap `20%`, resolution `0.05`, a 5×5 surface, no obstacles), the zigzag
planner emits the point `(0, 0.05)`, whose x-coordinate `0` is below
`robot_width / 2 = 0.05`, refuting the bounds claim for the zigzag
strategy. -/
theorem zigzag_out_of_bounds_counterexample :
    (0 < zigzagCEParams.robot_width ∧ 0 ≤ zigzagCEParams.overlap_percentage ∧
      zigzagCEParams.overlap_percentage < 100 ∧ 0 < zigzagCEParams.resolution ∧
      0 < zigzagCEParams.wall_width ∧ 0 < zigzagCEParams.wall_height) ∧
    ¬((plan_zigzag zigzagCEParams).Forall
      (fun p => is_within_bounds p.x p.y zigzagCEParams)) := by
  refine ⟨by norm_num [zigzagCEParams], ?_⟩
  rw [List.forall_iff_forall_mem]
  push_neg
  refine ⟨mkPlanPoint 0 (zigzagCEParams.robot_width / 2) (Real.pi / 4), ?_, ?_⟩
  · apply zigzag_first_point_mem
    · rfl
    · norm_num [zigzagCEParams]
    · norm_num [effectiveWidth, zigzagCEParams]
  · simp only [mkPlanPoint, is_within_bounds]
    intro hcon
    have h1 := hcon.1
    norm_num [zigzagCEParams] at h1

/-- The degenerate 0.05×0.05 surface with robot width 0.1 (robot wider than
the surface), empty obstacle list, default overlap 20 and resolution 0.01. -/
def degenerateParams : PlanningParameters :=
  ⟨1 / 10, 20, 1 / 100, 1 / 20, 1 / 20, []⟩

/-- C9 (amended): on the 0.05×0.05 surface with robot width 0.1 the
boustrophedon and spiral planners return an empty point sequence without
raising; the zigzag planner instead returns a nonempty sequence (see the
counterexample). -/
theorem degenerate_bous_spiral_empty :
    plan_boustrophedon degenerateParams = [] ∧
      plan_spiral degenerateParams = [] := by
  constructor
  · have h0 : (⌈((degenerateParams.wall_height - degenerateParams.robot_width / 2)
        - degenerateParams.robot_width / 2) / effectiveWidth degenerateParams⌉).toNat = 0 := by
      rw [Int.toNat_eq_zero, Int.ceil_le]
      push_cast
      norm_num [degenerateParams, effectiveWidth]
    simp only [plan_boustrophedon, arange, h0]
    simp
  · rw [plan_spiral, spiralGo, dif_neg]
    intro hcon
    have h1 := hcon.1
    rw [spiralMaxRadius] at h1
    norm_num [degenerateParams] at h1

/-- C9 counterexample: at the degenerate surface the zigzag planner still
emits points (the first pass starts at `x = 0`, `y = 0.05` and is accepted by
the free-space test), so it does not return the empty sequence. -/
theorem degenerate_zigzag_nonempty : plan_zigzag degenerateParams ≠ [] := by
  intro hcon
  have hmem : mkPlanPoint 0 (degenerateParams.robot_width / 2) (Real.pi / 4)
      ∈ plan_zigzag degenerateParams := by
    apply zigzag_first_point_mem
    · rfl
    · norm_num [degenerateParams]
    · norm_num [effectiveWidth, degenerateParams]
  rw [hcon] at hmem
  exact absurd hmem (by simp)

/-- C8 (amended): the boustrophedon and zigzag planners emit orientations in
`(-pi, pi]` (the values 0 or pi, and plus or minus pi/4, respectively); the
spiral planner emits the unnormalized tangential heading `angle + pi/2` with
`angle` in `[0, 2*pi)`, hence in `[pi/2, 2*pi + pi/2)` and not confined to
`(-pi, pi]`; and `normalize_angle` maps every input into the closed interval
`[-pi, pi]` (as its docstring states), not the half-open `(-pi, pi]`. -/
theorem orientation_ranges :
    (∀ a : ℝ, -Real.pi ≤ normalize_angle a ∧ normalize_angle a ≤ Real.pi) ∧
    (∀ P : PlanningParameters,
      ((plan_boustrophedon P).Forall
        (fun p => -Real.pi < p.orientation ∧ p.orientation ≤ Real.pi)) ∧
      ((plan_zigzag P).Forall
        (fun p => -Real.pi < p.orientation ∧ p.orientation ≤ Real.pi)) ∧
      ((plan_spiral P).Forall
        (fun p => Real.pi / 2 ≤ p.orientation ∧
          p.orientation < 2 * Real.pi + Real.pi / 2))) := by
  have hpi := Real.pi_pos
  constructor
  · intro a
    exact ⟨normLoopAdd_ge _, normLoopAdd_le _ (normLoopSub_le a)⟩
  · intro P
    refine ⟨List.forall_iff_forall_mem.mpr ?_, List.forall_iff_forall_mem.mpr ?_,
      List.forall_iff_forall_mem.mpr ?_⟩
    · intro p hp
      rw [plan_boustrophedon] at hp
      obtain ⟨iy, hiy, hrow⟩ := List.mem_flatMap.mp hp
      obtain ⟨x, hx, rfl⟩ := mem_bousRow P iy.1 iy.2 p hrow
      by_cases hi : iy.1 % 2 = 0
      · simp only [mkPlanPoint, hi, if_true]
        exact ⟨by linarith, by linarith⟩
      · simp only [mkPlanPoint, hi, if_false]
        exact ⟨by linarith, le_refl _⟩
    · intro p hp
      rw [plan_zigzag] at hp
      obtain ⟨i, hi, hpass⟩ := List.mem_flatMap.mp hp
      obtain ⟨x, y, rfl⟩ := mem_zigzagPass P _ i p hpass
      by_cases hev : i % 2 = 0
      · simp only [mkPlanPoint, hev, if_true]
        exact ⟨by linarith, by linarith⟩
      · simp only [mkPlanPoint, hev, if_false]
        exact ⟨by linarith, by linarith⟩
    · intro p hp
      rw [plan_spiral] at hp
      exact spiralGo_forall P (fun q => Real.pi / 2 ≤ q.orientation ∧
          q.orientation < 2 * Real.pi + Real.pi / 2)
        (fun r a ha0 ha2 _ => by
          simp only [mkPlanPoint]
          exact ⟨by linarith, by linarith⟩) _ 0
        le_rfl Real.two_pi_pos p hp

/-- Parameters on which the spiral planner emits an orientation above pi:
robot width 0.1, overlap 20, resolution 0.1, 5×5 surface, no obstacles. -/
def spiralCEParams : PlanningParameters := ⟨1 / 10, 20, 1 / 10, 5, 5, []⟩

/-- C8 counterexample: `normalize_angle (-pi) = -pi`, which is not in the
half-open interval `(-pi, pi]`; and the spiral planner's second emitted point
has orientation `2 + pi/2 > pi`, outside `(-pi, pi]`. -/
theorem orientation_counterexample :
    ¬(-Real.pi < normalize_angle (-Real.pi) ∧
        normalize_angle (-Real.pi) ≤ Real.pi) ∧
    ∃ p ∈ plan_spiral spiralCEParams,
      ¬(-Real.pi < p.orientation ∧ p.orientation ≤ Real.pi) := by
  have hpi := Real.pi_pos
  constructor
  · have h1 : normLoopSub (-Real.pi) = -Real.pi := by
      rw [normLoopSub, dif_neg]
      push_neg
      linarith
    have h2 : normLoopAdd (-Real.pi) = -Real.pi := by
      rw [normLoopAdd, dif_neg (by simp : ¬(-Real.pi < -Real.pi))]
    rw [normalize_angle, h1, h2]
    simp
  · have hfree : ∀ x y : ℝ, is_point_free x y spiralCEParams := by
      intro x y
      simp [is_point_free, spiralCEParams]
    have hguard : (1 / 20 : ℝ) < spiralMaxRadius spiralCEParams ∧
        0 < effectiveWidth spiralCEParams ∧ 0 < spiralCEParams.resolution := by
      norm_num [spiralMaxRadius, effectiveWidth, spiralCEParams]
    have hstep : spiralStep spiralCEParams (1 / 20) = 2 := by
      rw [spiralStep]
      norm_num [spiralCEParams, max_def]
    have hb1 : is_within_bounds (spiralCenterX spiralCEParams + 1 / 20 * Real.cos 0)
        (spiralCenterY spiralCEParams + 1 / 20 * Real.sin 0) spiralCEParams := by
      rw [Real.cos_zero, Real.sin_zero]
      norm_num [is_within_bounds, spiralCenterX, spiralCenterY, spiralCEParams]
    have hc1 := Real.neg_one_le_cos 2
    have hc2 := Real.cos_le_one 2
    have hs1 := Real.neg_one_le_sin 2
    have hs2 := Real.sin_le_one 2
    have hb2 : is_within_bounds (spiralCenterX spiralCEParams + 1 / 20 * Real.cos 2)
        (spiralCenterY spiralCEParams + 1 / 20 * Real.sin 2) spiralCEParams := by
      simp only [is_within_bounds, spiralCenterX, spiralCenterY, spiralCEParams]
      norm_num
      constructor
      · nlinarith
      constructor
      · nlinarith
      constructor
      · nlinarith
      · nlinarith
    have hangle : (0 : ℝ) + spiralStep spiralCEParams (1 / 20) = 2 := by
      rw [hstep]; ring
    have hrw2 : spiralCEParams.robot_width / 2 = (1 / 20 : ℝ) := by
      norm_num [spiralCEParams]
    have hnotreset : ¬((0 : ℝ) + spiralStep spiralCEParams (1 / 20) ≥ 2 * Real.pi) := by
      rw [hangle]
      push_neg
      linarith [Real.pi_gt_three]
    have e1 : plan_spiral spiralCEParams
        = mkPlanPoint (spiralCenterX spiralCEParams + 1 / 20 * Real.cos 0)
            (spiralCenterY spiralCEParams + 1 / 20 * Real.sin 0) (0 + Real.pi / 2)
          :: spiralGo spiralCEParams (1 / 20)
              (0 + spiralStep spiralCEParams (1 / 20)) := by
      rw [plan_spiral, hrw2, spiralGo, dif_pos hguard, if_pos ⟨hb1, hfree _ _⟩,
        dif_neg hnotreset]
      rfl
    have hmem2 : mkPlanPoint (spiralCenterX spiralCEParams + 1 / 20 * Real.cos 2)
        (spiralCenterY spiralCEParams + 1 / 20 * Real.sin 2) (2 + Real.pi / 2)
        ∈ spiralGo spiralCEParams (1 / 20) 2 := by
      rw [spiralGo, dif_pos hguard]
      apply List.mem_append_left
      rw [if_pos ⟨hb2, hfree _ _⟩]
      simp
    refine ⟨mkPlanPoint (spiralCenterX spiralCEParams + 1 / 20 * Real.cos 2)
        (spiralCenterY spiralCEParams + 1 / 20 * Real.sin 2) (2 + Real.pi / 2),
      ?_, ?_⟩
    · rw [e1, hangle]
      exact List.mem_cons_of_mem _ hmem2
    · intro hcon
      have h2 := hcon.2
      simp only [mkPlanPoint] at h2
      linarith [Real.pi_lt_d2]

/-- The fuelled verbatim spiral loop reaches its exit and computes the same
sequence as the terminating presentation, whenever the effective spacing and
the resolution are positive. -/
theorem spiralFuel_reaches (P : PlanningParameters)
    (heff : 0 < effectiveWidth P) (hres : 0 < P.resolution) :
    ∀ radius angle : ℝ, ∃ n : ℕ,
      spiralFuel P n radius angle = some (spiralGo P radius angle) := by
  intro radius angle
  induction radius, angle using spiralGo.induct P with
  | case1 radius angle h ih1 ih2 =>
    by_cases h2 : angle + spiralStep P radius ≥ 2 * Real.pi
    · obtain ⟨n, hn⟩ := ih1
      refine ⟨n + 1, ?_⟩
      rw [spiralFuel, if_pos h.1, if_pos h2, spiralGo, dif_pos h, dif_pos h2, hn]
      rfl
    · obtain ⟨n, hn⟩ := ih2 h2
      refine ⟨n + 1, ?_⟩
      rw [spiralFuel, if_pos h.1, if_neg h2, spiralGo, dif_pos h, dif_neg h2, hn]
      rfl
  | case2 radius angle h =>
    have hr : ¬(radius < spiralMaxRadius P) := fun hlt => h ⟨hlt, heff, hres⟩
    refine ⟨0, ?_⟩
    rw [spiralFuel, if_neg hr, spiralGo, dif_neg h]

/-- C4: for every parameter set with positive robot width and resolution,
overlap fraction below 1, and positive surface dimensions, the spiral
planner's loop terminates: the verbatim fuelled loop `spiralFuel` finishes
under some finite fuel (each full angular turn increases the radius by the
positive effective spacing until it reaches the maximum radius) and returns
the planner's finite point sequence. -/
theorem spiral_terminates (P : PlanningParameters)
    (hrw : 0 < P.robot_width) (hop1 : P.overlap_percentage < 100)
    (hres : 0 < P.resolution) (hW : 0 < P.wall_width) (hH : 0 < P.wall_height) :
    ∃ fuel : ℕ,
      spiralFuel P fuel (P.robot_width / 2) 0 = some (plan_spiral P) := by
  have heff : 0 < effectiveWidth P := by
    rw [effectiveWidth]
    apply mul_pos hrw
    linarith
  rw [plan_spiral]
  exact spiralFuel_reaches P heff hres (P.robot_width / 2) 0

/-- Concrete valid parameters for the C4 witness. -/
def spiralTermParams : PlanningParameters := ⟨1 / 10, 20, 1 / 100, 5, 5, []⟩

/-- C4 witness: the spiral loop terminates at a concrete valid parameter
set. -/
theorem spiral_terminates_witness :
    (0 < spiralTermParams.robot_width ∧
      spiralTermParams.overlap_percentage < 100 ∧
      0 < spiralTermParams.resolution ∧ 0 < spiralTermParams.wall_width ∧
      0 < spiralTermParams.wall_height) ∧
    ∃ fuel : ℕ,
      spiralFuel spiralTermParams fuel (spiralTermParams.robot_width / 2) 0
        = some (plan_spiral spiralTermParams) :=
  ⟨by norm_num [spiralTermParams],
    spiral_terminates spiralTermParams (by norm_num [spiralTermParams])
      (by norm_num [spiralTermParams]) (by norm_num [spiralTermParams])
      (by norm_num [spiralTermParams]) (by norm_num [spiralTermParams])⟩

/-- C7: the rapid-move insertion step equals its per-pair description: for
every consecutive pair of the pruned sequence, exactly one synthetic point
with the next point's `(x, y)`, `z = 0`, inactive, motion type rapid is
inserted immediately before the next point when the pair's 2D distance
exceeds the rapid threshold `0.05`, and nothing is inserted otherwise;
existing points are passed through unchanged. -/
theorem add_connecting_moves_eq_spec (pts : List PathPoint) :
    add_connecting_moves pts = add_connecting_moves_spec pts := by
  cases pts with
  | nil => rfl
  | cons p rest =>
    cases rest with
    | nil => rfl
    | cons q rest2 =>
      simp [add_connecting_moves, add_connecting_moves_spec, addMovesAux_eq_spec]

end RobotPlanning
